import Mathlib

/-!
Shallow embedding of the Todo-File Triage Engine of
staticWagomU/electron-todo-append (src/index.js): line parsing, the
urgency ranker behind the todo:list-urgent IPC handler, the completion
mutator behind todo:complete, and the description composer of todo:add.
Strings are modelled as lists of characters; JavaScript string
comparison operators are code-unit lexicographic and every character
involved is in the basic multilingual plane, so character order agrees
with code-unit order.
-/

namespace TodoTriage

/-- A JavaScript string, modelled as its list of characters. -/
abbrev Str := List Char

/-- Embed a Lean string literal into the model. -/
def str (s : String) : Str := s.data

/-- JavaScript whitespace, the character class that both regex `\s` and
`String.prototype.trim` / `trimEnd` use: tab, LF, VT, FF, CR, space,
NBSP, Ogham space mark, the en-quad..hair-space range, LS, PS, NNBSP,
MMSP, ideographic space and BOM. -/
def isSpace (c : Char) : Bool :=
  c = '\t' || c = '\n' || c = '\x0b' || c = '\x0c' || c = '\r' || c = ' ' ||
  c = '\u00A0' || c = '\u1680' || ('\u2000' ≤ c && c ≤ '\u200A') ||
  c = '\u2028' || c = '\u2029' || c = '\u202F' || c = '\u205F' ||
  c = '\u3000' || c = '\uFEFF'

/-- Leading-whitespace removal, the first half of `trim()`. -/
def trimLeft (s : Str) : Str := s.dropWhile isSpace

/-- Trailing-whitespace removal: JavaScript `trimEnd()`. -/
def trimRight : Str → Str
  | [] => []
  | c :: rest =>
    let r := trimRight rest
    if r = [] then (if isSpace c then [] else [c]) else c :: r

/-- JavaScript `String.prototype.trim`. -/
def trim (s : Str) : Str := trimRight (trimLeft s)

/-- JavaScript `content.split('\n')`: always at least one piece, one more
piece per newline character. -/
def splitLines : Str → List Str
  | [] => [[]]
  | c :: rest =>
    let r := splitLines rest
    if c = '\n' then [] :: r
    else (c :: r.headI) :: r.tail

/-- JavaScript `lines.join('\n')`. -/
def joinLines : List Str → Str
  | [] => []
  | [l] => l
  | l :: ls => l ++ '\n' :: joinLines ls

/-- JavaScript string `<` on two strings: code-unit lexicographic. -/
def strLt : Str → Str → Bool
  | [], [] => false
  | [], _ :: _ => true
  | _ :: _, [] => false
  | a :: s, b :: t => if a < b then true else if b < a then false else strLt s t

/-- JavaScript string `<=`: the complement of `>` in the total code-unit
order. -/
def strLe (a b : Str) : Bool := !strLt b a

/-- Three-way string comparison; models `localeCompare` on the strings the
ranker compares, which are always `YYYY-MM-DD` digit-and-hyphen strings,
where every locale collates them exactly by code unit. -/
def strCmp : Str → Str → Int
  | [], [] => 0
  | [], _ :: _ => -1
  | _ :: _, [] => 1
  | a :: s, b :: t => if a < b then -1 else if b < a then 1 else strCmp s t

/-- JavaScript truthiness of a string-or-null value: `null` and the empty
string are falsy. -/
def strTruthy : Option Str → Bool
  | none => false
  | some s => decide (s ≠ [])

/-- Regex character class `\d`. -/
def isDigit (c : Char) : Bool := '0' ≤ c && c ≤ '9'

/-- Regex character class `[A-Z]`. -/
def isUpperAZ (c : Char) : Bool := 'A' ≤ c && c ≤ 'Z'

/-- Regex `/^\(([A-Z])\)\s+/` applied to a line: on a match, yield the
captured priority letter together with the line with the whole greedy
match removed. -/
def stripPriority : Str → Option (Char × Str)
  | '(' :: c :: ')' :: d :: rest =>
    if isUpperAZ c && isSpace d then some (c, rest.dropWhile isSpace) else none
  | _ => none

/-- JavaScript `line.replace(/^\([A-Z]\)\s+/, '')`. -/
def dropPriority (s : Str) : Str :=
  match stripPriority s with
  | some (_, r) => r
  | none => s

/-- JavaScript `line.replace(/^\d{4}-\d{2}-\d{2}\s+/, '')`: drop a leading
creation-date stamp together with the following whitespace run. -/
def dropCreationDate (s : Str) : Str :=
  match s with
  | a :: b :: c :: d :: '-' :: e :: f :: '-' :: g :: h :: w :: rest =>
    if isDigit a && isDigit b && isDigit c && isDigit d &&
       isDigit e && isDigit f && isDigit g && isDigit h && isSpace w then
      rest.dropWhile isSpace
    else s
  | _ => s

/-- Try to match regex `due:(\d{4}-\d{2}-\d{2})` at the head of the string,
returning the captured date. -/
def dueAt : Str → Option Str
  | 'd' :: 'u' :: 'e' :: ':' :: a :: b :: c :: d :: '-' :: e :: f :: '-' :: g :: h :: _ =>
    if isDigit a && isDigit b && isDigit c && isDigit d &&
       isDigit e && isDigit f && isDigit g && isDigit h then
      some [a, b, c, d, '-', e, f, '-', g, h]
    else none
  | _ => none

/-- JavaScript `line.match(/due:(\d{4}-\d{2}-\d{2})/)`: first match anywhere
in the line, scanning start positions left to right. -/
def findDue : Str → Option Str
  | [] => none
  | c :: rest =>
    match dueAt (c :: rest) with
    | some d => some d
    | none => findDue rest

/-- Ranker output record (src/index.js line 303). -/
structure UrgentItem where
  priority : Option Char
  due : Option Str
  desc : Str
  isOverdue : Bool
  lineIndex : Nat
deriving DecidableEq, Repr

/-- The per-line mapping of the list-urgent handler (src/index.js lines
294-304); the argument is the already-trimmed line. -/
def mkItem (line : Str) (today : Str) (lineIndex : Nat) : UrgentItem :=
  let priority := (stripPriority line).map Prod.fst
  let due := findDue line
  { priority := priority
    due := due
    desc := trim (dropCreationDate (dropPriority line))
    isOverdue := strTruthy due && strLt (due.getD []) today
    lineIndex := lineIndex }

/-- The urgency filter (src/index.js line 305). -/
def isUrgent (threshold : Str) (t : UrgentItem) : Bool :=
  t.priority == some 'A' || (strTruthy t.due && strLe (t.due.getD []) threshold)

/-- The sort comparator (src/index.js lines 306-315). -/
def urgentCmp (a b : UrgentItem) : Int :=
  if a.isOverdue && !b.isOverdue then -1
  else if !a.isOverdue && b.isOverdue then 1
  else if a.priority == some 'A' && !(b.priority == some 'A') then -1
  else if !(a.priority == some 'A') && b.priority == some 'A' then 1
  else if strTruthy a.due && strTruthy b.due then strCmp (a.due.getD []) (b.due.getD [])
  else if strTruthy a.due then -1
  else if strTruthy b.due then 1
  else 0

/-- The list-urgent pipeline on file content (src/index.js lines 291-315):
split into lines, trim each keeping its index, drop blank and completed
lines, parse, keep urgent items, and sort with the comparator.
JavaScript `Array.prototype.sort` is a stable sort and the comparator is
consistent, which insertion sort models exactly. -/
def listUrgentTodos (content today threshold : Str) : List UrgentItem :=
  let step1 := (splitLines content).enum.map (fun p => (p.1, trim p.2))
  let step2 := step1.filter (fun p => decide (p.2 ≠ []) && !(List.isPrefixOf (str "x ") p.2))
  let step3 := step2.map (fun p => mkItem p.2 today p.1)
  let step4 := step3.filter (isUrgent threshold)
  List.insertionSort (fun a b => urgentCmp a b ≤ 0) step4

/-- Result shape of the list-urgent IPC handler. -/
structure ListResult where
  ok : Bool
  todos : List UrgentItem
deriving DecidableEq, Repr

/-- The todo:list-urgent handler over an optional file (none models a
missing task file, src/index.js line 283). -/
def listUrgentFS (file : Option Str) (today threshold : Str) : ListResult :=
  match file with
  | none => { ok := true, todos := [] }
  | some content => { ok := true, todos := listUrgentTodos content today threshold }

/-- Outcome of the todo:complete handler. -/
inductive CResult where
  | ok
  | notFound
  | outOfRange
  | alreadyCompleted
deriving DecidableEq, Repr

/-- The completed replacement line (src/index.js lines 339-340); the
argument is the already-trimmed target line. -/
def completedLine (line today : Str) : Str :=
  str "x " ++ today ++ ' ' :: dropPriority line

/-- The todo:complete handler (src/index.js lines 323-347) over an optional
file; returns the file state after the call together with the outcome. -/
def completeFS (file : Option Str) (today : Str) (lineIndex : Int) : Option Str × CResult :=
  match file with
  | none => (none, CResult.notFound)
  | some content =>
    let lines := splitLines content
    if lineIndex < 0 ∨ (lines.length : Int) ≤ lineIndex then
      (some content, CResult.outOfRange)
    else
      let line := trim (lines.getD lineIndex.toNat [])
      if line = [] ∨ List.isPrefixOf (str "x ") line then
        (some content, CResult.alreadyCompleted)
      else
        (some (joinLines (lines.set lineIndex.toNat (completedLine line today))), CResult.ok)

/-- A composition template (src/index.js config templates). -/
structure Template where
  name : Str
  projects : List Str
  contexts : List Str
  priority : Option Char
deriving DecidableEq, Repr

/-- JavaScript `Array.prototype.join(' ')` on strings. -/
def joinSpace : List Str → Str
  | [] => []
  | [s] => s
  | s :: rest => s ++ ' ' :: joinSpace rest

/-- The description builder of todo:add (src/index.js lines 247-255). -/
def descCompose (text : Str) (tmpl : Option Template) (dueToday : Bool) (today : Str) : Str :=
  let d1 := trim text
  let d2 :=
    match tmpl with
    | some t =>
        let tags := joinSpace (t.projects.map (fun p => '+' :: p) ++
                              t.contexts.map (fun c => '@' :: c))
        if tags ≠ [] then d1 ++ ' ' :: tags else d1
    | none => d1
  if dueToday then d2 ++ str " due:" ++ today else d2

/-- Modelled from the spec: the external line formatter `appendTaskToFile`
of the @wagomu/todotxt-parser package is not part of this repository.
Spec section 6 describes it as a canonical-syntax serializer for one new
line appended to the existing text; the serialized task line itself is
kept abstract as the parameter `newLine`. -/
def appendTaskToFile (existing : Str) (newLine : Str) : Str :=
  if existing = [] then newLine else existing ++ '\n' :: newLine

/-- The todo:add file rewrite (src/index.js lines 268-272): trim trailing
whitespace from the existing content, append the formatted line and force
exactly one trailing newline. -/
def addContent (content : Str) (newLine : Str) : Str :=
  appendTaskToFile (trimRight content) newLine ++ ['\n']

/-- The tag string of a resolved template as the specification describes
it: each project as `+project`, then each context as `@context`, joined by
single spaces; empty when no template resolves. -/
def specTagStr (tmpl : Option Template) : Str :=
  match tmpl with
  | none => []
  | some t =>
      joinSpace (t.projects.map (fun p => '+' :: p) ++ t.contexts.map (fun c => '@' :: c))

/-- The description shape stated in the specification: the trimmed text,
then a space and the tag string when it is non-empty, then the due-today
token, in exactly that order. -/
def specDescription (text : Str) (tmpl : Option Template) (dueToday : Bool) (today : Str) : Str :=
  trim text ++
  (if specTagStr tmpl = [] then [] else ' ' :: specTagStr tmpl) ++
  (if dueToday then str " due:" ++ today else [])

/-- Sort key of the comparator: overdue first, then priority A, then
having a due date, then the due string itself, lexicographically. -/
def sortKey (t : UrgentItem) : Bool ×ₗ Bool ×ₗ Bool ×ₗ Str :=
  toLex (!t.isOverdue, toLex (!(t.priority == some 'A'), toLex (!(strTruthy t.due), t.due.getD [])))

/-- Comparator order together with the file-order tie-break that a stable
sort guarantees. -/
def stableLe (a b : UrgentItem) : Prop :=
  urgentCmp a b ≤ 0 ∧ (urgentCmp a b = 0 → a.lineIndex ≤ b.lineIndex)

/-- Due fields in ranker output are never the empty string: they are regex
captures of ten characters or absent. -/
def dueWF (t : UrgentItem) : Prop :=
  t.due = none ∨ ∃ s, t.due = some s ∧ s ≠ []

/-- The ordering stated in the specification: overdue first, then priority
A first, then items with a due date ordered lexicographically before items
without one, and file order last. -/
def specLe (a b : UrgentItem) : Prop :=
  (a.isOverdue = true ∧ b.isOverdue = false) ∨
  (a.isOverdue = b.isOverdue ∧
    ((a.priority = some 'A' ∧ b.priority ≠ some 'A') ∨
      ((a.priority = some 'A' ↔ b.priority = some 'A') ∧
        ((∃ x y, a.due = some x ∧ b.due = some y ∧ strLt x y = true) ∨
          ((∃ x, a.due = some x) ∧ b.due = none) ∨
          (a.due = b.due ∧ a.lineIndex ≤ b.lineIndex)))))

theorem strCmp_eq_zero_iff : ∀ s t : Str, strCmp s t = 0 ↔ s = t
  | [], [] => by simp [strCmp]
  | [], _ :: _ => by simp [strCmp]
  | _ :: _, [] => by simp [strCmp]
  | a :: s, b :: t => by
    simp only [strCmp, List.cons.injEq]
    split_ifs with h1 h2
    · constructor
      · intro h; simp at h
      · rintro ⟨rfl, rfl⟩; exact absurd h1 (lt_irrefl a)
    · constructor
      · intro h; simp at h
      · rintro ⟨rfl, rfl⟩; exact absurd h2 (lt_irrefl a)
    · have hab : a = b := le_antisymm (not_lt.1 h2) (not_lt.1 h1)
      subst hab
      simp [strCmp_eq_zero_iff s t]

theorem strCmp_neg_iff : ∀ s t : Str, strCmp s t < 0 ↔ List.Lex (· < ·) s t
  | [], [] => by simp [strCmp, List.Lex.not_nil_right]
  | [], b :: t => by simpa [strCmp] using List.Lex.nil
  | a :: s, [] => by simp [strCmp, List.Lex.not_nil_right]
  | a :: s, b :: t => by
    simp only [strCmp]
    split_ifs with h1 h2
    · simpa using List.Lex.rel h1
    · constructor
      · intro h; exact absurd h (by simp)
      · intro h
        cases h with
        | cons h' => exact absurd h2 (lt_irrefl _)
        | rel h' => exact absurd h2 (lt_asymm h')
    · have hab : a = b := le_antisymm (not_lt.1 h2) (not_lt.1 h1)
      subst hab
      rw [List.Lex.cons_iff]
      exact strCmp_neg_iff s t

theorem strLt_iff : ∀ s t : Str, strLt s t = true ↔ List.Lex (· < ·) s t
  | [], [] => by simp [strLt, List.Lex.not_nil_right]
  | [], b :: t => by simpa [strLt] using List.Lex.nil
  | a :: s, [] => by simp [strLt, List.Lex.not_nil_right]
  | a :: s, b :: t => by
    simp only [strLt]
    split_ifs with h1 h2
    · simpa using List.Lex.rel h1
    · constructor
      · intro h; exact absurd h (by simp)
      · intro h
        cases h with
        | cons h' => exact absurd h2 (lt_irrefl _)
        | rel h' => exact absurd h2 (lt_asymm h')
    · have hab : a = b := le_antisymm (not_lt.1 h2) (not_lt.1 h1)
      subst hab
      rw [List.Lex.cons_iff]
      exact strLt_iff s t

theorem lex_iff_lt {s t : Str} : List.Lex (· < ·) s t ↔ s < t := Iff.rfl

theorem strCmp_le_iff (s t : Str) : strCmp s t ≤ 0 ↔ s ≤ t := by
  have h1 : strCmp s t ≤ 0 ↔ strCmp s t < 0 ∨ strCmp s t = 0 := by omega
  rw [h1, strCmp_neg_iff, strCmp_eq_zero_iff, lex_iff_lt, le_iff_lt_or_eq]

theorem strLt_iff_lt {s t : Str} : strLt s t = true ↔ s < t := by
  rw [strLt_iff, lex_iff_lt]

theorem strTruthy_false_getD {o : Option Str} (h : strTruthy o = false) : o.getD [] = [] := by
  cases o with
  | none => rfl
  | some s => simpa [strTruthy] using h

theorem sortKey_le_iff (a b : UrgentItem) :
    sortKey a ≤ sortKey b ↔
      ((!a.isOverdue) < (!b.isOverdue) ∨ ((!a.isOverdue) = (!b.isOverdue) ∧
        ((!(a.priority == some 'A')) < (!(b.priority == some 'A')) ∨
          ((!(a.priority == some 'A')) = (!(b.priority == some 'A')) ∧
            ((!(strTruthy a.due)) < (!(strTruthy b.due)) ∨
              ((!(strTruthy a.due)) = (!(strTruthy b.due)) ∧
                a.due.getD [] ≤ b.due.getD [])))))) := by
  simp [sortKey, Prod.Lex.le_iff, Prod.Lex.lt_iff]

theorem sortKey_eq_iff (a b : UrgentItem) :
    sortKey a = sortKey b ↔
      ((!a.isOverdue) = (!b.isOverdue) ∧ (!(a.priority == some 'A')) = (!(b.priority == some 'A')) ∧
        (!(strTruthy a.due)) = (!(strTruthy b.due)) ∧ a.due.getD [] = b.due.getD []) := by
  simp [sortKey, Prod.ext_iff]

theorem urgentCmp_le_iff (a b : UrgentItem) : urgentCmp a b ≤ 0 ↔ sortKey a ≤ sortKey b := by
  rw [sortKey_le_iff]
  by_cases hao : a.isOverdue = true <;> by_cases hbo : b.isOverdue = true <;>
  by_cases hap : a.priority = some 'A' <;> by_cases hbp : b.priority = some 'A' <;>
  by_cases had : strTruthy a.due = true <;> by_cases hbd : strTruthy b.due = true <;>
    simp_all [urgentCmp, Bool.lt_iff, strCmp_le_iff, strTruthy_false_getD]

theorem urgentCmp_eq_zero_iff (a b : UrgentItem) : urgentCmp a b = 0 ↔ sortKey a = sortKey b := by
  rw [sortKey_eq_iff]
  by_cases hao : a.isOverdue = true <;> by_cases hbo : b.isOverdue = true <;>
  by_cases hap : a.priority = some 'A' <;> by_cases hbp : b.priority = some 'A' <;>
  by_cases had : strTruthy a.due = true <;> by_cases hbd : strTruthy b.due = true <;>
    simp_all [urgentCmp, strCmp_eq_zero_iff, strTruthy_false_getD]

theorem cmp_le_trans {a b c : UrgentItem} (h1 : urgentCmp a b ≤ 0) (h2 : urgentCmp b c ≤ 0) :
    urgentCmp a c ≤ 0 := by
  rw [urgentCmp_le_iff] at h1 h2 ⊢
  exact le_trans h1 h2

theorem cmp_le_total (a b : UrgentItem) : urgentCmp a b ≤ 0 ∨ urgentCmp b a ≤ 0 := by
  rw [urgentCmp_le_iff, urgentCmp_le_iff]
  exact le_total _ _

theorem cmp_zero_symm {a b : UrgentItem} (h : urgentCmp a b = 0) : urgentCmp b a = 0 := by
  rw [urgentCmp_eq_zero_iff] at h ⊢
  exact h.symm

theorem pairwise_stable_orderedInsert (a : UrgentItem) :
    ∀ l : List UrgentItem, l.Sorted (fun x y => urgentCmp x y ≤ 0) →
      l.Pairwise stableLe → (∀ b ∈ l, a.lineIndex ≤ b.lineIndex) →
      (List.orderedInsert (fun x y => urgentCmp x y ≤ 0) a l).Pairwise stableLe
  | [], _, _, _ => by simp [List.orderedInsert, stableLe]
  | b :: l, hs, hq, hidx => by
    rw [List.orderedInsert]
    split_ifs with hab
    · refine List.Pairwise.cons ?_ hq
      intro y hy
      refine ⟨?_, fun _ => hidx y hy⟩
      rcases List.mem_cons.mp hy with rfl | hmem
      · exact hab
      · exact cmp_le_trans hab (List.rel_of_sorted_cons hs y hmem)
    · refine List.Pairwise.cons ?_
        (pairwise_stable_orderedInsert a l hs.of_cons hq.of_cons
          (fun c hc => hidx c (List.mem_cons_of_mem _ hc)))
      intro y hy
      rcases (List.mem_orderedInsert _).mp hy with rfl | hmem
      · refine ⟨(cmp_le_total y b).resolve_left hab, fun h0 => ?_⟩
        exact absurd (le_of_eq (cmp_zero_symm h0)) hab
      · exact (List.pairwise_cons.mp hq).1 y hmem

theorem pairwise_stable_insertionSort :
    ∀ l : List UrgentItem, l.Pairwise (fun x y => x.lineIndex ≤ y.lineIndex) →
      (List.insertionSort (fun x y => urgentCmp x y ≤ 0) l).Pairwise stableLe
  | [], _ => by simp [List.insertionSort]
  | a :: l, h => by
    rw [List.insertionSort]
    haveI : IsTotal UrgentItem (fun a b => urgentCmp a b ≤ 0) := ⟨cmp_le_total⟩
    haveI : IsTrans UrgentItem (fun a b => urgentCmp a b ≤ 0) := ⟨fun _ _ _ => cmp_le_trans⟩
    refine pairwise_stable_orderedInsert a _ (List.sorted_insertionSort _ _)
      (pairwise_stable_insertionSort l h.of_cons) ?_
    intro b hb
    exact (List.pairwise_cons.mp h).1 b ((List.mem_insertionSort _).mp hb)

theorem mkItem_lineIndex (l today : Str) (i : Nat) : (mkItem l today i).lineIndex = i := rfl

theorem mkItem_due (l today : Str) (i : Nat) : (mkItem l today i).due = findDue l := rfl

theorem fst_le_of_mem_enumFrom {α : Type} :
    ∀ {n : Nat} {l : List α} {p : Nat × α}, p ∈ l.enumFrom n → n ≤ p.1
  | _, [], _, h => absurd h (by simp)
  | n, _ :: l, p, h => by
    rw [List.enumFrom_cons] at h
    rcases List.mem_cons.mp h with rfl | h2
    · exact le_refl n
    · exact le_trans (Nat.le_succ n) (fst_le_of_mem_enumFrom h2)

theorem pairwise_fst_lt_enumFrom {α : Type} :
    ∀ (n : Nat) (l : List α), (l.enumFrom n).Pairwise (fun p q => p.1 < q.1)
  | _, [] => by simp
  | n, _ :: l => by
    rw [List.enumFrom_cons]
    exact List.Pairwise.cons
      (fun q hq => lt_of_lt_of_le (Nat.lt_succ_self n) (fst_le_of_mem_enumFrom hq))
      (pairwise_fst_lt_enumFrom (n + 1) l)

theorem pairwise_fst_lt_enum {α : Type} (l : List α) :
    l.enum.Pairwise (fun p q => p.1 < q.1) :=
  pairwise_fst_lt_enumFrom 0 l

theorem listUrgent_pairwise_stable (content today threshold : Str) :
    (listUrgentTodos content today threshold).Pairwise stableLe := by
  unfold listUrgentTodos
  apply pairwise_stable_insertionSort
  apply List.Pairwise.sublist (List.filter_sublist _)
  rw [List.pairwise_map]
  apply List.Pairwise.sublist (List.filter_sublist _)
  rw [List.pairwise_map]
  exact (pairwise_fst_lt_enum (splitLines content)).imp (fun h => le_of_lt h)

theorem dueAt_ne_nil {s d : Str} (h : dueAt s = some d) : d ≠ [] := by
  unfold dueAt at h
  split at h
  · split_ifs at h
    rw [Option.some.injEq] at h
    subst h
    simp
  · cases h

theorem findDue_ne_nil : ∀ {s d : Str}, findDue s = some d → d ≠ []
  | [], _, h => by simp [findDue] at h
  | c :: rest, d, h => by
    rw [findDue] at h
    cases hda : dueAt (c :: rest) with
    | some x =>
      rw [hda, Option.some.injEq] at h
      exact h ▸ dueAt_ne_nil hda
    | none =>
      rw [hda] at h
      exact findDue_ne_nil h

theorem mem_listUrgent_dueWF {content today threshold : Str} {t : UrgentItem}
    (h : t ∈ listUrgentTodos content today threshold) : dueWF t := by
  unfold listUrgentTodos at h
  rw [List.mem_insertionSort, List.mem_filter] at h
  obtain ⟨hmem, _⟩ := h
  rw [List.mem_map] at hmem
  obtain ⟨p, _, rfl⟩ := hmem
  rw [dueWF, mkItem_due]
  cases hfd : findDue p.2 with
  | none => exact Or.inl rfl
  | some d => exact Or.inr ⟨d, rfl, findDue_ne_nil hfd⟩

theorem strCmp_neg_iff_strLt {s t : Str} : strCmp s t < 0 ↔ strLt s t = true := by
  rw [strCmp_neg_iff, strLt_iff]

theorem stableLe_specLe {a b : UrgentItem}
    (wa : dueWF a) (wb : dueWF b) (h : stableLe a b) : specLe a b := by
  obtain ⟨hle, hidx⟩ := h
  have hle' := (urgentCmp_le_iff a b).mp hle
  rw [sortKey_le_iff] at hle'
  rcases hle' with h1 | ⟨h1, h2⟩
  · rw [Bool.lt_iff] at h1
    exact Or.inl ⟨by simpa using h1.1, by simpa using h1.2⟩
  · have hov : a.isOverdue = b.isOverdue := by simpa using h1
    refine Or.inr ⟨hov, ?_⟩
    rcases h2 with h2 | ⟨h2, h3⟩
    · rw [Bool.lt_iff] at h2
      exact Or.inl ⟨by simpa using h2.1, by simpa using h2.2⟩
    · have hpr : (a.priority == some 'A') = (b.priority == some 'A') := by simpa using h2
      refine Or.inr ⟨by simpa using hpr, ?_⟩
      rcases h3 with h3 | ⟨h3, h4⟩
      · rw [Bool.lt_iff] at h3
        have hta : strTruthy a.due = true := by simpa using h3.1
        have htb : strTruthy b.due = false := by simpa using h3.2
        rcases wa with hwa | ⟨sa, hwa, _⟩
        · rw [hwa] at hta; simp [strTruthy] at hta
        · rcases wb with hwb | ⟨sb, hwb, hsb⟩
          · exact Or.inr (Or.inl ⟨⟨sa, hwa⟩, hwb⟩)
          · rw [hwb] at htb; simp [strTruthy] at htb; exact absurd htb hsb
      · have htab : strTruthy a.due = strTruthy b.due := by simpa using h3
        have hcz : urgentCmp a b = 0 → a.lineIndex ≤ b.lineIndex := hidx
        by_cases hta : strTruthy a.due = true
        · have htb : strTruthy b.due = true := htab ▸ hta
          rcases wa with hwa | ⟨sa, hwa, _⟩
          · rw [hwa] at hta; simp [strTruthy] at hta
          rcases wb with hwb | ⟨sb, hwb, _⟩
          · rw [hwb] at htb; simp [strTruthy] at htb
          have hga : a.due.getD [] = sa := by rw [hwa]; rfl
          have hgb : b.due.getD [] = sb := by rw [hwb]; rfl
          rw [hga, hgb] at h4
          rcases lt_or_eq_of_le h4 with hlt | heq
          · exact Or.inl ⟨sa, sb, hwa, hwb, strLt_iff_lt.mpr hlt⟩
          · refine Or.inr (Or.inr ⟨by rw [hwa, hwb, heq], hcz ?_⟩)
            rw [urgentCmp_eq_zero_iff, sortKey_eq_iff]
            refine ⟨by rw [hov], by rw [hpr], by rw [htab], ?_⟩
            rw [hga, hgb, heq]
        · have hta' : strTruthy a.due = false := by simpa using hta
          have htb' : strTruthy b.due = false := htab ▸ hta'
          have hwa' : a.due = none := by
            rcases wa with hwa | ⟨sa, hwa, hsa⟩
            · exact hwa
            · rw [hwa] at hta'; simp [strTruthy] at hta'; exact absurd hta' hsa
          have hwb' : b.due = none := by
            rcases wb with hwb | ⟨sb, hwb, hsb⟩
            · exact hwb
            · rw [hwb] at htb'; simp [strTruthy] at htb'; exact absurd htb' hsb
          refine Or.inr (Or.inr ⟨by rw [hwa', hwb'], hcz ?_⟩)
          rw [urgentCmp_eq_zero_iff, sortKey_eq_iff]
          exact ⟨by rw [hov], by rw [hpr], by rw [htab],
            by rw [strTruthy_false_getD hta', strTruthy_false_getD htb']⟩

theorem mkItem_priority (l today : Str) (i : Nat) :
    (mkItem l today i).priority = (stripPriority l).map Prod.fst := rfl

theorem listUrgent_sorted_by_spec_keys (content today threshold : Str) :
    List.Sorted specLe (listUrgentTodos content today threshold) :=
  List.Pairwise.imp_of_mem
    (fun ha hb hab => stableLe_specLe (mem_listUrgent_dueWF ha) (mem_listUrgent_dueWF hb) hab)
    (listUrgent_pairwise_stable content today threshold)

theorem listUrgent_mem_iff (content today threshold : Str) (i : Nat) :
    (∃ t ∈ listUrgentTodos content today threshold, t.lineIndex = i) ↔
      (∃ l, (splitLines content)[i]? = some l ∧ trim l ≠ [] ∧
        ¬(List.isPrefixOf (str "x ") (trim l) = true) ∧
        ((stripPriority (trim l)).map Prod.fst = some 'A' ∨
          (∃ d, findDue (trim l) = some d ∧ strLe d threshold = true))) := by
  unfold listUrgentTodos
  simp only [List.mem_insertionSort, List.mem_filter, List.mem_map]
  constructor
  · rintro ⟨t, ⟨⟨p, ⟨⟨q, hq, rfl⟩, hcond⟩, rfl⟩, hurg⟩, hidx⟩
    rw [mkItem_lineIndex] at hidx
    subst hidx
    refine ⟨q.2, (List.mem_enum_iff_getElem?).mp hq, ?_, ?_, ?_⟩
    · simp only [Bool.and_eq_true, decide_eq_true_eq] at hcond
      exact hcond.1
    · simp only [Bool.and_eq_true, Bool.not_eq_true'] at hcond
      simp [hcond.2]
    · rw [isUrgent] at hurg
      simp only [Bool.or_eq_true] at hurg
      rcases hurg with hp | hd
      · exact Or.inl (by simpa [mkItem_priority] using hp)
      · simp only [Bool.and_eq_true] at hd
        obtain ⟨ht, hle⟩ := hd
        rw [mkItem_due] at ht hle
        cases hfd : findDue (trim q.2) with
        | none => rw [hfd] at ht; simp [strTruthy] at ht
        | some d =>
          rw [hfd] at hle
          exact Or.inr ⟨d, rfl, by simpa using hle⟩
  · rintro ⟨l, hl, hblank, hx, hsel⟩
    refine ⟨mkItem (trim l) today i, ⟨⟨(i, trim l), ⟨⟨(i, l), ?_, rfl⟩, ?_⟩, rfl⟩, ?_⟩, rfl⟩
    · exact (List.mem_enum_iff_getElem?).mpr hl
    · simp only [Bool.not_eq_true] at hx
      simp [hblank, hx]
    · rw [isUrgent]
      rcases hsel with hp | ⟨d, hfd, hle⟩
      · rw [mkItem_priority, hp]
        simp
      · rw [mkItem_priority, mkItem_due, hfd]
        have hd : d ≠ [] := findDue_ne_nil hfd
        simp [strTruthy, hd, hle]

theorem splitLines_ne_nil : ∀ s : Str, splitLines s ≠ []
  | [] => by simp [splitLines]
  | c :: rest => by
    rw [splitLines]
    split_ifs <;> simp

theorem not_mem_newline_splitLines : ∀ (s : Str), ∀ l ∈ splitLines s, '\n' ∉ l
  | [], l, hl => by
    rw [splitLines] at hl
    simp at hl
    simp [hl]
  | c :: rest, l, hl => by
    rw [splitLines] at hl
    obtain ⟨x, xs, hr⟩ := List.exists_cons_of_ne_nil (splitLines_ne_nil rest)
    by_cases hc : c = '\n'
    · rw [if_pos hc] at hl
      rcases List.mem_cons.mp hl with rfl | hmem
      · simp
      · exact not_mem_newline_splitLines rest l hmem
    · rw [if_neg hc, hr] at hl
      rcases List.mem_cons.mp hl with rfl | hmem
      · intro hin
        rcases List.mem_cons.mp hin with rfl | hmem2
        · exact hc rfl
        · exact not_mem_newline_splitLines rest x (hr ▸ List.mem_cons_self x xs) hmem2
      · exact not_mem_newline_splitLines rest l (hr ▸ List.mem_cons_of_mem x hmem)

theorem splitLines_no_newline : ∀ {l : Str}, '\n' ∉ l → splitLines l = [l]
  | [], _ => rfl
  | c :: rest, h => by
    rw [splitLines]
    have hc : ¬(c = '\n') := fun hh => h (hh ▸ List.mem_cons_self c rest)
    rw [if_neg hc, splitLines_no_newline (fun hh => h (List.mem_cons_of_mem c hh))]
    rfl

theorem splitLines_append_newline : ∀ {l : Str} (u : Str), '\n' ∉ l →
    splitLines (l ++ '\n' :: u) = l :: splitLines u
  | [], u, _ => by simp [splitLines]
  | c :: rest, u, h => by
    have hc : ¬(c = '\n') := fun hh => h (hh ▸ List.mem_cons_self c rest)
    rw [List.cons_append, splitLines, if_neg hc,
      splitLines_append_newline u (fun hh => h (List.mem_cons_of_mem c hh))]
    rfl

theorem splitLines_joinLines : ∀ {ls : List Str}, ls ≠ [] → (∀ l ∈ ls, '\n' ∉ l) →
    splitLines (joinLines ls) = ls
  | [], h, _ => absurd rfl h
  | [l], _, hn => by
    rw [joinLines]
    exact splitLines_no_newline (hn l (List.mem_singleton_self l))
  | l :: l2 :: rest, _, hn => by
    have hrec : splitLines (joinLines (l2 :: rest)) = l2 :: rest :=
      splitLines_joinLines (List.cons_ne_nil l2 rest)
        (fun x hx => hn x (List.mem_cons_of_mem l hx))
    rw [joinLines, splitLines_append_newline _ (hn l (List.mem_cons_self _ _)), hrec]
    exact List.cons_ne_nil l2 rest

theorem trimRight_sublist : ∀ s : Str, List.Sublist (trimRight s) s
  | [] => List.Sublist.refl []
  | c :: rest => by
    rw [trimRight]
    split_ifs with h1 h2
    · exact List.nil_sublist _
    · exact List.singleton_sublist.mpr (List.mem_cons_self c rest)
    · exact List.Sublist.cons₂ c (trimRight_sublist rest)

theorem trimRight_idem : ∀ s : Str, trimRight (trimRight s) = trimRight s
  | [] => rfl
  | c :: rest => by
    rw [trimRight]
    split_ifs with h1 h2
    · rfl
    · simp [trimRight, h2]
    · rw [trimRight, trimRight_idem rest, if_neg h1]

theorem trimRight_all_space : ∀ {s : Str}, (∀ c ∈ s, isSpace c = true) → trimRight s = []
  | [], _ => rfl
  | c :: rest, h => by
    rw [trimRight, trimRight_all_space (fun x hx => h x (List.mem_cons_of_mem c hx))]
    simp [h c (List.mem_cons_self c rest)]

theorem trimRight_tail {a : Char} {t : Str} (h : trimRight (a :: t) = a :: t) :
    trimRight t = t := by
  simp only [trimRight] at h
  by_cases h1 : trimRight t = []
  · rw [if_pos h1] at h
    by_cases h2 : isSpace a = true
    · rw [if_pos h2] at h
      exact absurd h (by simp)
    · rw [if_neg h2] at h
      have h' : t = [] := by simpa using h
      rw [h1, h']
  · rw [if_neg h1] at h
    exact (List.cons.injEq _ _ _ _ ▸ h : _ ∧ _).2

theorem trimRight_suffix : ∀ (u : Str) {v : Str}, trimRight (u ++ v) = u ++ v →
    trimRight v = v
  | [], _, h => h
  | a :: u, v, h => by
    rw [List.cons_append] at h
    exact trimRight_suffix u (trimRight_tail h)

theorem trimRight_append_fixed : ∀ (u : Str) {w : Str}, trimRight w = w → w ≠ [] →
    trimRight (u ++ w) = u ++ w
  | [], _, hw, _ => hw
  | a :: u, w, hw, hne => by
    rw [List.cons_append, trimRight, trimRight_append_fixed u hw hne]
    rw [if_neg (by simp [hne])]

theorem completeFS_some (content today : Str) (i : Int) :
    completeFS (some content) today i =
      if i < 0 ∨ ((splitLines content).length : Int) ≤ i then
        (some content, CResult.outOfRange)
      else if trim ((splitLines content).getD i.toNat []) = [] ∨
          List.isPrefixOf (str "x ") (trim ((splitLines content).getD i.toNat [])) = true then
        (some content, CResult.alreadyCompleted)
      else
        (some (joinLines ((splitLines content).set i.toNat
          (completedLine (trim ((splitLines content).getD i.toNat [])) today))), CResult.ok) :=
  rfl

theorem trim_trimRight_fixed (s : Str) : trimRight (trim s) = trim s :=
  trimRight_idem (trimLeft s)

theorem stripPriority_eq_some {s : Str} {c : Char} {r : Str}
    (h : stripPriority s = some (c, r)) :
    ∃ d rest, s = '(' :: c :: ')' :: d :: rest ∧ isUpperAZ c = true ∧ isSpace d = true ∧
      r = rest.dropWhile isSpace := by
  unfold stripPriority at h
  split at h
  · split_ifs at h with hcond
    rw [Option.some.injEq, Prod.mk.injEq] at h
    obtain ⟨rfl, rfl⟩ := h
    simp only [Bool.and_eq_true] at hcond
    exact ⟨_, _, rfl, hcond.1, hcond.2, rfl⟩
  · cases h

theorem dropPriority_trimRight_fixed {s : Str} (hs : trimRight s = s) :
    trimRight (dropPriority s) = dropPriority s := by
  rw [dropPriority]
  cases hsp : stripPriority s with
  | none => exact hs
  | some pr =>
    obtain ⟨c, r⟩ := pr
    obtain ⟨d, rest, rfl, _, _, hr⟩ := stripPriority_eq_some hsp
    have h1 : trimRight (d :: rest) = d :: rest :=
      trimRight_suffix ['(', c, ')'] hs
    have h2 : trimRight rest = rest := trimRight_tail h1
    have h3 : trimRight (rest.dropWhile isSpace) = rest.dropWhile isSpace := by
      refine trimRight_suffix (rest.takeWhile isSpace) ?_
      rw [List.takeWhile_append_dropWhile]
      exact h2
    rw [hr]
    exact h3

theorem dropPriority_ne_nil {s : Str} (hs : trimRight s = s) (hne : s ≠ []) :
    dropPriority s ≠ [] := by
  rw [dropPriority]
  cases hsp : stripPriority s with
  | none => exact hne
  | some pr =>
    obtain ⟨c, r⟩ := pr
    obtain ⟨d, rest, rfl, _, hd, hr⟩ := stripPriority_eq_some hsp
    intro hnil
    rw [hr] at hnil
    have hall : ∀ x ∈ d :: rest, isSpace x = true := by
      intro x hx
      rcases List.mem_cons.mp hx with rfl | hx2
      · exact hd
      · exact List.dropWhile_eq_nil_iff.mp hnil x hx2
    have h1 : trimRight (d :: rest) = d :: rest :=
      trimRight_suffix ['(', c, ')'] hs
    rw [trimRight_all_space hall] at h1
    exact List.noConfusion h1

theorem trim_sublist (s : Str) : List.Sublist (trim s) s :=
  (trimRight_sublist (trimLeft s)).trans (List.dropWhile_sublist isSpace)

theorem dropPriority_sublist (s : Str) : List.Sublist (dropPriority s) s := by
  rw [dropPriority]
  cases hsp : stripPriority s with
  | none => exact List.Sublist.refl s
  | some pr =>
    obtain ⟨c, r⟩ := pr
    obtain ⟨d, rest, rfl, _, _, hr⟩ := stripPriority_eq_some hsp
    rw [hr]
    refine (List.dropWhile_sublist isSpace).trans ?_
    refine (List.sublist_cons_self d rest).trans ?_
    refine (List.sublist_cons_self ')' _).trans ?_
    refine (List.sublist_cons_self c _).trans ?_
    exact List.sublist_cons_self '(' _

theorem completedLine_no_newline {raw today : Str} (htoday : '\n' ∉ today)
    (hraw : '\n' ∉ raw) : '\n' ∉ completedLine (trim raw) today := by
  have hx : str "x " = ['x', ' '] := rfl
  rw [completedLine, hx]
  intro hin
  simp only [List.mem_append, List.mem_cons, List.not_mem_nil, or_false] at hin
  have hchar1 : ¬('\n' = 'x') := by decide
  have hchar2 : ¬('\n' = ' ') := by decide
  rcases hin with (h1 | h1) | (h1 | h1)
  · rcases h1 with h1 | h1
    · exact hchar1 h1
    · exact hchar2 h1
  · exact htoday h1
  · exact hchar2 h1
  · exact hraw (((dropPriority_sublist (trim raw)).trans (trim_sublist raw)).subset h1)

theorem trim_completedLine {l today : Str} (hfix : trimRight l = l) (hne : l ≠ []) :
    trim (completedLine l today) = completedLine l today := by
  have hx : str "x " = ['x', ' '] := rfl
  have hw : trimRight (dropPriority l) = dropPriority l := dropPriority_trimRight_fixed hfix
  have hwne : dropPriority l ≠ [] := dropPriority_ne_nil hfix hne
  rw [completedLine, hx, trim]
  have hshape : ('x' :: ' ' :: []) ++ today ++ ' ' :: dropPriority l =
      ('x' :: ' ' :: (today ++ [' '])) ++ dropPriority l := by
    simp
  rw [hshape]
  have hleft : trimLeft (('x' :: ' ' :: (today ++ [' '])) ++ dropPriority l) =
      ('x' :: ' ' :: (today ++ [' '])) ++ dropPriority l := by
    rw [trimLeft, List.cons_append, List.dropWhile_cons]
    simp [isSpace]
  rw [hleft]
  exact trimRight_append_fixed _ hw hwne

theorem isPrefixOf_completedLine (l today : Str) :
    List.isPrefixOf (str "x ") (completedLine l today) = true := by
  have hx : str "x " = ['x', ' '] := rfl
  rw [completedLine, hx]
  simp [List.isPrefixOf]

theorem trimLeft_of_head_not_space {c : Char} (rest : Str) (hc : isSpace c = false) :
    trimLeft (c :: rest) = c :: rest := by
  rw [trimLeft, List.dropWhile_cons, hc]
  simp

theorem trimLeft_trim_fixed (s : Str) : trimLeft (trim s) = trim s := by
  rw [trim]
  cases htl : trimLeft s with
  | nil => rfl
  | cons c rest =>
    have hc : isSpace c = false := by
      have hw := List.head?_dropWhile_not isSpace s
      rw [show List.dropWhile isSpace s = c :: rest from htl] at hw
      simpa using hw
    rw [trimRight]
    split_ifs with h1 h2
    · rw [hc] at h2; exact absurd h2 (by simp)
    · exact trimLeft_of_head_not_space [] hc
    · exact trimLeft_of_head_not_space _ hc

theorem completeFS_range_eq {content today : Str} {i : Int}
    (h : i < 0 ∨ ((splitLines content).length : Int) ≤ i) :
    completeFS (some content) today i = (some content, CResult.outOfRange) := by
  rw [completeFS_some, if_pos h]

theorem completeFS_already_eq {content today : Str} {i : Int}
    (h1 : ¬(i < 0 ∨ ((splitLines content).length : Int) ≤ i))
    (h2 : trim ((splitLines content).getD i.toNat []) = [] ∨
      List.isPrefixOf (str "x ") (trim ((splitLines content).getD i.toNat [])) = true) :
    completeFS (some content) today i = (some content, CResult.alreadyCompleted) := by
  rw [completeFS_some, if_neg h1, if_pos h2]

theorem completeFS_ok_eq {content today : Str} {i : Int}
    (h1 : ¬(i < 0 ∨ ((splitLines content).length : Int) ≤ i))
    (h2 : ¬(trim ((splitLines content).getD i.toNat []) = [] ∨
      List.isPrefixOf (str "x ") (trim ((splitLines content).getD i.toNat [])) = true)) :
    completeFS (some content) today i =
      (some (joinLines ((splitLines content).set i.toNat
        (completedLine (trim ((splitLines content).getD i.toNat [])) today))), CResult.ok) := by
  rw [completeFS_some, if_neg h1, if_neg h2]

theorem complete_twice (content today today2 : Str) (i : Int)
    (h1 : ¬(i < 0 ∨ ((splitLines content).length : Int) ≤ i))
    (h2 : ¬(trim ((splitLines content).getD i.toNat []) = [] ∨
      List.isPrefixOf (str "x ") (trim ((splitLines content).getD i.toNat [])) = true))
    (htoday : '\n' ∉ today) :
    (completeFS ((completeFS (some content) today i).1) today2 i).2 =
      CResult.alreadyCompleted := by
  have hlt : i.toNat < (splitLines content).length := by
    push_neg at h1
    omega
  have hraw_mem : (splitLines content).getD i.toNat [] ∈ splitLines content := by
    rw [List.getD_eq_getElem?_getD, List.getElem?_eq_getElem hlt]
    exact List.getElem_mem hlt
  have hraw_nn : '\n' ∉ (splitLines content).getD i.toNat [] :=
    not_mem_newline_splitLines content _ hraw_mem
  push_neg at h2
  obtain ⟨hblank, hpref⟩ := h2
  have hfix : trimRight (trim ((splitLines content).getD i.toNat [])) =
      trim ((splitLines content).getD i.toNat []) := trim_trimRight_fixed _
  have hfirst := @completeFS_ok_eq content today i h1 (by push_neg; exact ⟨hblank, hpref⟩)
  rw [hfirst]
  have hnl : '\n' ∉ completedLine (trim ((splitLines content).getD i.toNat [])) today :=
    completedLine_no_newline htoday hraw_nn
  have hset_nn : ∀ l ∈ (splitLines content).set i.toNat
      (completedLine (trim ((splitLines content).getD i.toNat [])) today), '\n' ∉ l := by
    intro l hl
    rcases List.mem_or_eq_of_mem_set hl with hmem | rfl
    · exact not_mem_newline_splitLines content l hmem
    · exact hnl
  have hset_ne : (splitLines content).set i.toNat
      (completedLine (trim ((splitLines content).getD i.toNat [])) today) ≠ [] := by
    intro hh
    have hlen := List.length_set (splitLines content) i.toNat
      (completedLine (trim ((splitLines content).getD i.toNat [])) today)
    rw [hh] at hlen
    simp at hlen
    omega
  have hsplit : splitLines (joinLines ((splitLines content).set i.toNat
      (completedLine (trim ((splitLines content).getD i.toNat [])) today))) =
      (splitLines content).set i.toNat
        (completedLine (trim ((splitLines content).getD i.toNat [])) today) :=
    splitLines_joinLines hset_ne hset_nn
  have hr2 : ¬(i < 0 ∨ ((splitLines (joinLines ((splitLines content).set i.toNat
      (completedLine (trim ((splitLines content).getD i.toNat [])) today)))).length : Int) ≤ i) := by
    rw [hsplit, List.length_set]
    push_neg
    omega
  have hgetd : (splitLines (joinLines ((splitLines content).set i.toNat
      (completedLine (trim ((splitLines content).getD i.toNat [])) today)))).getD i.toNat [] =
      completedLine (trim ((splitLines content).getD i.toNat [])) today := by
    rw [hsplit, List.getD_eq_getElem?_getD,
      List.getElem?_set_self (by simpa using hlt)]
    rfl
  have hsecond := @completeFS_already_eq _ today2 i hr2 (by
    rw [hgetd, trim_completedLine hfix hblank]
    exact Or.inr (isPrefixOf_completedLine _ _))
  rw [hsecond]

theorem strLt_irrefl (s : Str) : strLt s s = false := by
  cases hb : strLt s s
  · rfl
  · exact absurd (strLt_iff_lt.mp hb) (lt_irrefl s)

theorem mkItem_isOverdue (l today : Str) (i : Nat) :
    (mkItem l today i).isOverdue =
      (strTruthy (findDue l) && strLt ((findDue l).getD []) today) := rfl

/-- C8: an item returned by the ranker is overdue exactly when its due date
exists and is strictly smaller than today; a due date equal to today is not
overdue. -/
theorem listUrgent_isOverdue_iff {content today threshold : Str} {t : UrgentItem}
    (h : t ∈ listUrgentTodos content today threshold) :
    (t.isOverdue = true ↔ ∃ d, t.due = some d ∧ strLt d today = true) ∧
    (t.due = some today → t.isOverdue = false) := by
  unfold listUrgentTodos at h
  rw [List.mem_insertionSort, List.mem_filter] at h
  obtain ⟨hmem, _⟩ := h
  rw [List.mem_map] at hmem
  obtain ⟨p, _, rfl⟩ := hmem
  constructor
  · rw [mkItem_isOverdue, mkItem_due]
    cases hfd : findDue p.2 with
    | none => simp [strTruthy]
    | some d => simp [strTruthy, findDue_ne_nil hfd]
  · intro hd
    rw [mkItem_due] at hd
    rw [mkItem_isOverdue, hd]
    simp [strLt_irrefl]

/-- C8 witness at a concrete overdue item. -/
theorem listUrgent_isOverdue_iff_witness :
    (((mkItem (str "a due:2024-01-01") (str "2024-01-02") 0).isOverdue = true ↔
      ∃ d, (mkItem (str "a due:2024-01-01") (str "2024-01-02") 0).due = some d ∧
        strLt d (str "2024-01-02") = true) ∧
    ((mkItem (str "a due:2024-01-01") (str "2024-01-02") 0).due = some (str "2024-01-02") →
      (mkItem (str "a due:2024-01-01") (str "2024-01-02") 0).isOverdue = false)) :=
  listUrgent_isOverdue_iff
    (show mkItem (str "a due:2024-01-01") (str "2024-01-02") 0 ∈
      listUrgentTodos (str "a due:2024-01-01") (str "2024-01-02") (str "2024-01-09")
      by decide)

/-- C4: a lineIndex outside the valid range yields the out-of-range failure,
a blank or already completed target line yields the already-completed
failure, and in both cases the returned file content is byte-for-byte the
input content. -/
theorem complete_failure_cases (content today : Str) (i : Int) :
    ((i < 0 ∨ ((splitLines content).length : Int) ≤ i) →
      completeFS (some content) today i = (some content, CResult.outOfRange)) ∧
    (¬(i < 0 ∨ ((splitLines content).length : Int) ≤ i) →
      (trim ((splitLines content).getD i.toNat []) = [] ∨
        List.isPrefixOf (str "x ") (trim ((splitLines content).getD i.toNat [])) = true) →
      completeFS (some content) today i = (some content, CResult.alreadyCompleted)) :=
  ⟨fun h => completeFS_range_eq h, fun h1 h2 => completeFS_already_eq h1 h2⟩

/-- C4 witness: completing line 1 of a one-line file is out of range, and
completing an already completed line fails, both leaving the file as it
was. -/
theorem complete_failure_cases_witness :
    completeFS (some (str "a")) (str "2024-05-05") 1 =
      (some (str "a"), CResult.outOfRange) ∧
    completeFS (some (str "x done")) (str "2024-05-05") 0 =
      (some (str "x done"), CResult.alreadyCompleted) :=
  ⟨(complete_failure_cases (str "a") (str "2024-05-05") 1).1 (by decide),
   (complete_failure_cases (str "x done") (str "2024-05-05") 0).2 (by decide) (by decide)⟩

/-- C3 counterexample: on a target line with leading whitespace the rewrite
is not "x <today> " followed by the raw line with only the priority prefix
stripped; the code trims the line first. -/
theorem complete_rewrite_counterexample :
    (completeFS (some (str " a")) (str "2024-05-05") 0).2 = CResult.ok ∧
    (completeFS (some (str " a")) (str "2024-05-05") 0).1 = some (str "x 2024-05-05 a") ∧
    (completeFS (some (str " a")) (str "2024-05-05") 0).1 ≠
      some (str "x 2024-05-05 " ++ str " a") := by
  refine ⟨by decide, by decide, ?_⟩
  decide

/-- C3 amended: successful completion rewrites exactly the target line to
"x <today> " followed by the whitespace-trimmed line with any leading
priority prefix stripped, and a second complete call on the same index then
fails with the already-completed condition. -/
theorem complete_success (content today today2 : Str) (i : Int)
    (h1 : ¬(i < 0 ∨ ((splitLines content).length : Int) ≤ i))
    (h2 : ¬(trim ((splitLines content).getD i.toNat []) = [] ∨
      List.isPrefixOf (str "x ") (trim ((splitLines content).getD i.toNat [])) = true))
    (htoday : '\n' ∉ today) :
    completeFS (some content) today i =
      (some (joinLines ((splitLines content).set i.toNat
        (str "x " ++ today ++ ' ' :: dropPriority (trim ((splitLines content).getD i.toNat []))))),
        CResult.ok) ∧
    (completeFS ((completeFS (some content) today i).1) today2 i).2 =
      CResult.alreadyCompleted :=
  ⟨completeFS_ok_eq h1 h2, complete_twice content today today2 i h1 h2 htoday⟩

/-- C3 witness on the specification example: completing
"(B) 2024-01-01 Call bank" on 2024-05-05 gives
"x 2024-05-05 2024-01-01 Call bank" and a second call fails. -/
theorem complete_success_witness :
    completeFS (some (str "(B) 2024-01-01 Call bank")) (str "2024-05-05") 0 =
      (some (str "x 2024-05-05 2024-01-01 Call bank"), CResult.ok) ∧
    (completeFS ((completeFS (some (str "(B) 2024-01-01 Call bank")) (str "2024-05-05") 0).1)
        (str "2024-05-06") 0).2 = CResult.alreadyCompleted := by
  have h := complete_success (str "(B) 2024-01-01 Call bank") (str "2024-05-05")
    (str "2024-05-06") 0 (by decide) (by decide) (by decide)
  refine ⟨?_, h.2⟩
  rw [h.1]
  decide

/-- C10: the rewritten line is built from the whitespace-trimmed text of the
original line, and that trimmed text carries no leading or trailing
whitespace. -/
theorem complete_uses_trimmed_line (content today : Str) (i : Int)
    (h1 : ¬(i < 0 ∨ ((splitLines content).length : Int) ≤ i))
    (h2 : ¬(trim ((splitLines content).getD i.toNat []) = [] ∨
      List.isPrefixOf (str "x ") (trim ((splitLines content).getD i.toNat [])) = true)) :
    completeFS (some content) today i =
      (some (joinLines ((splitLines content).set i.toNat
        (completedLine (trim ((splitLines content).getD i.toNat [])) today))), CResult.ok) ∧
    trimLeft (trim ((splitLines content).getD i.toNat [])) =
      trim ((splitLines content).getD i.toNat []) ∧
    trimRight (trim ((splitLines content).getD i.toNat [])) =
      trim ((splitLines content).getD i.toNat []) :=
  ⟨completeFS_ok_eq h1 h2, trimLeft_trim_fixed _, trim_trimRight_fixed _⟩

/-- C10 witness: a line padded with spaces is completed from its trimmed
text. -/
theorem complete_uses_trimmed_line_witness :
    completeFS (some (str "  call bank  ")) (str "2024-05-05") 0 =
      (some (joinLines ((splitLines (str "  call bank  ")).set (Int.toNat 0)
        (completedLine (trim ((splitLines (str "  call bank  ")).getD (Int.toNat 0) []))
          (str "2024-05-05")))), CResult.ok) ∧
    trimLeft (trim ((splitLines (str "  call bank  ")).getD (Int.toNat 0) [])) =
      trim ((splitLines (str "  call bank  ")).getD (Int.toNat 0) []) ∧
    trimRight (trim ((splitLines (str "  call bank  ")).getD (Int.toNat 0) [])) =
      trim ((splitLines (str "  call bank  ")).getD (Int.toNat 0) []) :=
  complete_uses_trimmed_line (str "  call bank  ") (str "2024-05-05") 0 (by decide) (by decide)

/-- C9: every ranker item points at an in-range, non-blank, not yet
completed line of the unchanged file, so a completion call at that index
passes both validations and succeeds. -/
theorem listUrgent_complete_ok (today2 : Str) {content today threshold : Str} {t : UrgentItem}
    (h : t ∈ listUrgentTodos content today threshold) :
    t.lineIndex < (splitLines content).length ∧
    trim ((splitLines content).getD t.lineIndex []) ≠ [] ∧
    List.isPrefixOf (str "x ") (trim ((splitLines content).getD t.lineIndex [])) = false ∧
    (completeFS (some content) today2 (t.lineIndex : Int)).2 = CResult.ok := by
  unfold listUrgentTodos at h
  rw [List.mem_insertionSort, List.mem_filter] at h
  obtain ⟨hmem, _⟩ := h
  rw [List.mem_map] at hmem
  obtain ⟨p, hp, rfl⟩ := hmem
  rw [List.mem_filter] at hp
  obtain ⟨hp1, hcond⟩ := hp
  rw [List.mem_map] at hp1
  obtain ⟨q, hq, rfl⟩ := hp1
  simp only [Bool.and_eq_true, decide_eq_true_eq, Bool.not_eq_true'] at hcond
  have hsome : (splitLines content)[q.1]? = some q.2 := (List.mem_enum_iff_getElem?).mp hq
  have hlt : q.1 < (splitLines content).length := by
    rcases List.getElem?_eq_some_iff.mp hsome with ⟨hh, _⟩
    exact hh
  have hgetd : (splitLines content).getD q.1 [] = q.2 := by
    rw [List.getD_eq_getElem?_getD, hsome]
    rfl
  rw [mkItem_lineIndex]
  refine ⟨hlt, ?_, ?_, ?_⟩
  · rw [hgetd]; exact hcond.1
  · rw [hgetd]; exact hcond.2
  · have heq : ((q.1 : Int)).toNat = q.1 := Int.toNat_natCast q.1
    have hok := @completeFS_ok_eq content today2 (q.1 : Int)
      (by push_neg; constructor
          · exact Int.natCast_nonneg q.1
          · exact_mod_cast hlt)
      (by rw [heq, hgetd]; push_neg; exact ⟨hcond.1, by simp [hcond.2]⟩)
    rw [hok]

/-- C9 witness at a concrete urgent item. -/
theorem listUrgent_complete_ok_witness :
    (mkItem (str "a due:2024-01-01") (str "2024-01-02") 0).lineIndex <
      (splitLines (str "a due:2024-01-01")).length ∧
    trim ((splitLines (str "a due:2024-01-01")).getD
      (mkItem (str "a due:2024-01-01") (str "2024-01-02") 0).lineIndex []) ≠ [] ∧
    List.isPrefixOf (str "x ") (trim ((splitLines (str "a due:2024-01-01")).getD
      (mkItem (str "a due:2024-01-01") (str "2024-01-02") 0).lineIndex [])) = false ∧
    (completeFS (some (str "a due:2024-01-01")) (str "2024-05-05")
      ((mkItem (str "a due:2024-01-01") (str "2024-01-02") 0).lineIndex : Int)).2 =
      CResult.ok :=
  listUrgent_complete_ok (str "2024-05-05")
    (show mkItem (str "a due:2024-01-01") (str "2024-01-02") 0 ∈
      listUrgentTodos (str "a due:2024-01-01") (str "2024-01-02") (str "2024-01-09")
      by decide)

/-- C5: the composed description equals the trimmed input text, then the
template tag string preceded by one space when non-empty, then the
due-today token, with the due token strictly after any template tags. -/
theorem descCompose_spec (text : Str) (tmpl : Option Template) (dueToday : Bool) (today : Str) :
    descCompose text tmpl dueToday today = specDescription text tmpl dueToday today := by
  rw [descCompose.eq_def, specDescription, specTagStr.eq_def]
  cases tmpl with
  | none => cases dueToday <;> simp
  | some t =>
    by_cases htags : joinSpace (t.projects.map (fun p => '+' :: p) ++
        t.contexts.map (fun c => '@' :: c)) = [] <;>
      cases dueToday <;> simp [htags, List.append_assoc]

/-- C7: a missing task file is treated as empty by the list-urgent read
path, while completion fails hard with the not-found condition and the
file stays absent. -/
theorem missing_file_behavior (today threshold today2 : Str) :
    listUrgentFS none today threshold = { ok := true, todos := [] } ∧
    ∀ i : Int, completeFS none today2 i = (none, CResult.notFound) :=
  ⟨rfl, fun _ => rfl⟩

/-- C6 counterexample: composing against a file whose pre-existing line
ends in a space rewrites that line without the space, so pre-existing
lines are not always character-for-character identical. -/
theorem frame_counterexample :
    (splitLines (str "a \n")).getD 0 [] = str "a " ∧
    (splitLines (addContent (str "a \n") (str "b"))).getD 0 [] = str "a" ∧
    str "a " ≠ str "a" := by
  refine ⟨by decide, by decide, by decide⟩

theorem trimRight_prefix_space : ∀ s : Str,
    ∃ rest, trimRight s ++ rest = s ∧ ∀ c ∈ rest, isSpace c = true
  | [] => ⟨[], rfl, by simp⟩
  | c :: s => by
    obtain ⟨rest, hr, hsp⟩ := trimRight_prefix_space s
    rw [trimRight]
    split_ifs with h1 h2
    · refine ⟨c :: s, rfl, ?_⟩
      intro x hx
      rcases List.mem_cons.mp hx with rfl | hx2
      · exact h2
      · have hrs : rest = s := by rw [h1] at hr; simpa using hr
        exact hsp x (hrs ▸ hx2)
    · refine ⟨s, rfl, ?_⟩
      intro x hx
      have hrs : rest = s := by rw [h1] at hr; simpa using hr
      exact hsp x (hrs ▸ hx)
    · exact ⟨rest, by rw [List.cons_append, hr], hsp⟩

theorem splitLines_joinLines_set {content today : Str} {i : Int}
    (hlt : i.toNat < (splitLines content).length) (htoday : '\n' ∉ today) :
    splitLines (joinLines ((splitLines content).set i.toNat
      (completedLine (trim ((splitLines content).getD i.toNat [])) today))) =
    (splitLines content).set i.toNat
      (completedLine (trim ((splitLines content).getD i.toNat [])) today) := by
  have hraw_mem : (splitLines content).getD i.toNat [] ∈ splitLines content := by
    rw [List.getD_eq_getElem?_getD, List.getElem?_eq_getElem hlt]
    exact List.getElem_mem hlt
  have hraw_nn : '\n' ∉ (splitLines content).getD i.toNat [] :=
    not_mem_newline_splitLines content _ hraw_mem
  have hnl : '\n' ∉ completedLine (trim ((splitLines content).getD i.toNat [])) today :=
    completedLine_no_newline htoday hraw_nn
  refine splitLines_joinLines ?_ ?_
  · intro hh
    have hlen := List.length_set (splitLines content) i.toNat
      (completedLine (trim ((splitLines content).getD i.toNat [])) today)
    rw [hh] at hlen
    simp at hlen
    omega
  · intro l hl
    rcases List.mem_or_eq_of_mem_set hl with hmem | rfl
    · exact not_mem_newline_splitLines content l hmem
    · exact hnl

/-- C6 amended: composition, on every pre-call file content, first removes
the trailing whitespace of the file and then appends exactly one line, so
the retained content is a whitespace-only-truncated prefix of the old
content; successful completion leaves every line other than the targeted
one character-for-character identical. -/
theorem frame_effects (content newLine today : Str) (i : Int) (j : Nat) :
    (addContent content newLine =
      trimRight content ++ (if trimRight content = [] then [] else ['\n']) ++
        newLine ++ ['\n'] ∧
      ∃ rest, trimRight content ++ rest = content ∧ ∀ c ∈ rest, isSpace c = true) ∧
    ('\n' ∉ today → j ≠ i.toNat →
      (completeFS (some content) today i).2 = CResult.ok →
      (splitLines ((completeFS (some content) today i).1.getD []))[j]? =
        (splitLines content)[j]?) := by
  constructor
  · constructor
    · rw [addContent, appendTaskToFile]
      split_ifs with he <;> simp [he]
    · exact trimRight_prefix_space content
  · intro htoday hj hok
    by_cases hr : i < 0 ∨ ((splitLines content).length : Int) ≤ i
    · rw [completeFS_range_eq hr] at hok
      simp at hok
    · by_cases ha : trim ((splitLines content).getD i.toNat []) = [] ∨
        List.isPrefixOf (str "x ") (trim ((splitLines content).getD i.toNat [])) = true
      · rw [completeFS_already_eq hr ha] at hok
        simp at hok
      · have hlt : i.toNat < (splitLines content).length := by
          push_neg at hr
          omega
        rw [completeFS_ok_eq hr ha]
        simp only [Option.getD_some]
        rw [splitLines_joinLines_set hlt htoday]
        exact List.getElem?_set_ne (fun hh => hj hh.symm)

/-- C6 witness at concrete files: the composition equation holds both for
a file with content and for the empty file, and completing line 0 of
"t\nu" leaves line 1 unchanged. -/
theorem frame_effects_witness :
    (addContent (str "t\nu") (str "b") =
      trimRight (str "t\nu") ++ (if trimRight (str "t\nu") = [] then [] else ['\n']) ++
        str "b" ++ ['\n'] ∧
      ∃ rest, trimRight (str "t\nu") ++ rest = str "t\nu" ∧ ∀ c ∈ rest, isSpace c = true) ∧
    (addContent (str "") (str "b") =
      trimRight (str "") ++ (if trimRight (str "") = [] then [] else ['\n']) ++
        str "b" ++ ['\n'] ∧
      ∃ rest, trimRight (str "") ++ rest = str "" ∧ ∀ c ∈ rest, isSpace c = true) ∧
    (splitLines ((completeFS (some (str "t\nu")) (str "2024-05-05") 0).1.getD []))[1]? =
      (splitLines (str "t\nu"))[1]? :=
  ⟨(frame_effects (str "t\nu") (str "b") (str "2024-05-05") 0 1).1,
   (frame_effects (str "") (str "b") (str "2024-05-05") 0 1).1,
   (frame_effects (str "t\nu") (str "b") (str "2024-05-05") 0 1).2
     (by decide) (by decide) (by decide)⟩

end TodoTriage
